import Mathlib

/-!
Shallow embedding of the httpcache repository (RFC 9111 cache-control library).

Strings are modelled as lists of bytes (natural numbers): Go strings are byte
slices and the tokenizer in internal/cachecontrol/cachecontrol.go indexes raw
bytes.  Byte-offset spans of tokens are therefore faithful.  ASCII string
literals are converted with bytesOf; for ASCII text the UTF-8 bytes coincide
with the character codes.
-/

/-- Byte strings: the model of the Go string type. -/
abbrev Str := List Nat

/-- Bytes of an ASCII Lean string literal. -/
def bytesOf (s : String) : Str := s.data.map Char.toNat

/-- Go slice expression s[a:b] for 0 <= a <= b <= len s. -/
def byteSlice (s : Str) (a b : Nat) : Str := (s.drop a).take (b - a)

namespace cachecontrol

/-- isControlCharacterOrSpace from cachecontrol.go: byte <= 0x20 or DEL (0x7F). -/
def isControlCharacterOrSpace (c : Nat) : Bool := c ≤ 32 || c == 127

/-- TokenType from cachecontrol.go. -/
inductive TokenType where
  | invalid
  | comma
  | equals
  | space
  | text
deriving DecidableEq, Repr

/-- Token from cachecontrol.go: type, byte span and text.  The Go field named
end is a Lean keyword and is rendered endPos. -/
structure Token where
  type : TokenType := .invalid
  start : Nat := 0
  endPos : Nat := 0
  text : Str := []
deriving DecidableEq, Repr

instance : Inhabited Token := ⟨{}⟩

/-- The inner loop of the control-character case of Tokenize: starting at j,
skip bytes while they satisfy isControlCharacterOrSpace, returning the first
index that does not (or the length of the input). -/
def scanSpaces (s : Str) (j : Nat) : Nat :=
  j + ((s.drop j).takeWhile isControlCharacterOrSpace).length

/-- The quoted-string scan of Tokenize (the inner loop of the case
textStart == -1 and c == quote).  i0 is the index of the opening quote, j the
current index, and the remaining arguments mirror the Go locals escaping,
unescaped (the strings.Builder contents) and unescapedTo.  Returns the index
of the closing quote together with the unescaped text, or none when the input
ends before a closing quote is found.  The fuel argument only bounds the
recursion; callers pass the input length, which is always sufficient. -/
def scanQuoted (s : Str) (i0 : Nat) : Nat → Nat → Bool → Str → Nat → Option (Nat × Str)
  | 0, _, _, _, _ => none
  | fuel + 1, j, escaping, unescaped, unescapedTo =>
    if h : j < s.length then
      let c := s.get ⟨j, h⟩
      if escaping then
        scanQuoted s i0 fuel (j + 1) false (unescaped ++ [c]) (j + 1)
      else if c == 92 then
        scanQuoted s i0 fuel (j + 1) true
          (if unescapedTo < j then unescaped ++ byteSlice s unescapedTo j else unescaped) (j + 1)
      else if c == 34 then
        some (j, if unescaped.isEmpty then byteSlice s (i0 + 1) j else unescaped ++ byteSlice s unescapedTo j)
      else
        scanQuoted s i0 fuel (j + 1) escaping unescaped unescapedTo
    else none

/-- The text-run flush that Tokenize performs before emitting a space, comma
or equals token (and at the end of the input): if a text run is open and
nonempty, emit it.  Tokenize maintains the invariant that an open run started
strictly before the current index. -/
def flushText (s : Str) (textStart : Option Nat) (i : Nat) : List Token :=
  match textStart with
  | some ts => if ts < i then [{ type := .text, start := ts, endPos := i, text := byteSlice s ts i }] else []
  | none => []

/-- The main loop of Tokenize.  i is the loop index and textStart the open
text run (Go uses the sentinel -1 for no open run, modelled as none).  The
fuel argument only bounds the recursion; Tokenize passes length + 1, which is
always sufficient since every step advances i. -/
def tokenizeAux (s : Str) : Nat → Nat → Option Nat → List Token
  | 0, _, _ => []
  | fuel + 1, i, textStart =>
    if h : i < s.length then
      let c := s.get ⟨i, h⟩
      if isControlCharacterOrSpace c then
        let j := scanSpaces s (i + 1)
        flushText s textStart i ++
          ({ type := .space, start := i, endPos := j, text := byteSlice s i j } :: tokenizeAux s fuel j none)
      else if c == 44 then
        flushText s textStart i ++
          ({ type := .comma, start := i, endPos := i + 1, text := [44] } :: tokenizeAux s fuel (i + 1) none)
      else if c == 61 then
        flushText s textStart i ++
          ({ type := .equals, start := i, endPos := i + 1, text := [61] } :: tokenizeAux s fuel (i + 1) none)
      else if textStart.isNone && c == 34 then
        match scanQuoted s i s.length (i + 1) false [] (i + 1) with
        | some (j, text) =>
          { type := .text, start := i, endPos := j + 1, text := text } :: tokenizeAux s fuel (j + 1) none
        | none => tokenizeAux s fuel (i + 1) (some i)
      else if textStart.isNone then
        tokenizeAux s fuel (i + 1) (some i)
      else
        tokenizeAux s fuel (i + 1) textStart
    else
      flushText s textStart s.length

/-- Tokenize from cachecontrol.go, with the lazy sequence collected into a
list (full iteration). -/
def Tokenize (s : Str) : List Token := tokenizeAux s (s.length + 1) 0 none

/-- A byte that terminates an unquoted text run of Tokenize: a
control/space byte, a comma or an equals sign.  Used to state where a
recovered broken-quote run ends. -/
def isDelimiterByte (c : Nat) : Bool := isControlCharacterOrSpace c || c == 44 || c == 61

/-- The first index at or after j holding a delimiter byte (or the input
length when none follows): the boundary at which an open text run of
Tokenize ends. -/
def nextBoundary (s : Str) (j : Nat) : Nat :=
  j + ((s.drop j).takeWhile (fun c => !isDelimiterByte c)).length

/-- Directive from cachecontrol.go. -/
structure Directive where
  Name : Str := []
  Value : Str := []
  HasValue : Bool := false
deriving DecidableEq, Repr

/-- The two states of the state machine in Parse (stateName and stateValue). -/
inductive PState where
  | name
  | value
deriving DecidableEq, Repr

/-- The loop body of Parse over the token sequence.  The accumulators name,
value and lastToken mirror the Go locals (lastToken starts as the zero-value
Token).  The invalid token type never occurs in the output of Tokenize; Go
panics there, modelled as skipping the token. -/
def parseAux : List Token → PState → Str → Str → Token → List Directive
  | [], state, name, _value, _ =>
    if state = .name ∧ name.isEmpty then []
    else [{ Name := name, Value := _value, HasValue := state = PState.value }]
  | token :: rest, state, name, value, lastToken =>
    match state with
    | .name =>
      match token.type with
      | .comma =>
        if name.isEmpty then parseAux rest .name name value token
        else { Name := name } :: parseAux rest .name [] value token
      | .equals => parseAux rest .value name value token
      | .space => parseAux rest .name name value token
      | .text =>
        let name1 := if !name.isEmpty && lastToken.type == .space then name ++ lastToken.text else name
        parseAux rest .name (name1 ++ token.text) value token
      | .invalid => parseAux rest .name name value token
    | .value =>
      match token.type with
      | .comma =>
        { Name := name, Value := value, HasValue := true } :: parseAux rest .name [] [] token
      | .equals =>
        let value1 := if !value.isEmpty && lastToken.type == .space then value ++ lastToken.text else value
        parseAux rest .value name (value1 ++ token.text) token
      | .space => parseAux rest .value name value token
      | .text =>
        let value1 := if !value.isEmpty && lastToken.type == .space then value ++ lastToken.text else value
        parseAux rest .value name (value1 ++ token.text) token
      | .invalid => parseAux rest .value name value token

/-- Parse from cachecontrol.go, with the lazy sequence collected into a list
(full iteration). -/
def Parse (s : Str) : List Directive := parseAux (Tokenize s) .name [] [] default

end cachecontrol

namespace httpcache

/-- The two sentinel errors of parseDeltaSeconds (errEmptyDeltaSeconds and
errInvalidDeltaSeconds). -/
inductive DeltaSecondsError where
  | empty
  | invalid
deriving DecidableEq, Repr

/-- 2 to the 64: the modulus of the Go uint64 arithmetic in parseDeltaSeconds. -/
def U64 : Nat := 18446744073709551616

/-- 2 to the 63: the sign boundary of int64. -/
def I64 : Nat := 9223372036854775808

/-- math.MaxInt64, the saturation value of ParseAge (a time.Duration in
nanoseconds). -/
def maxInt64 : Int := 9223372036854775807

/-- Reinterpretation of a uint64 value as an int64 (the Go conversion
int64(d)). -/
def toInt64 (d : Nat) : Int := if d < I64 then (d : Int) else (d : Int) - (U64 : Int)

/-- One iteration of the accumulation loop of parseDeltaSeconds: multiply by
10, add the digit, both modulo 2^64, then saturate to MaxUint64 when the
wrap-detection d1 < d fires. -/
def deltaStep (d c : Nat) : Nat :=
  let d1 := (d * 10 + (c - 48)) % U64
  if d1 < d then U64 - 1 else d1

/-- The digit loop of parseDeltaSeconds. -/
def parseDeltaSecondsGo : Str → Nat → Except DeltaSecondsError Nat
  | [], d => .ok d
  | c :: rest, d =>
    if c < 48 || 57 < c then .error .invalid
    else parseDeltaSecondsGo rest (deltaStep d c)

/-- parseDeltaSeconds from the httpcache package: uint64 accumulation with
RFC 9111 overflow saturation.  Go iterates over runes; on a byte model every
non-ASCII byte decodes to a non-digit rune, so the byte-wise digit test is
equivalent. -/
def parseDeltaSeconds (s : Str) : Except DeltaSecondsError Nat :=
  if s = [] then .error .empty else parseDeltaSecondsGo s 0

/-- ParseAge from the httpcache package.  The literal 9223372036 is
math.MaxInt64 / int64(time.Second).  In the non-saturating branch the
multiplication by time.Second cannot overflow int64 because the guard bounds
the value by 9223372036. -/
def ParseAge (s : Str) : Except DeltaSecondsError Int :=
  match parseDeltaSeconds s with
  | .error e => .error e
  | .ok d =>
    if toInt64 d < 0 ∨ toInt64 d > 9223372036 then .ok maxInt64
    else .ok (toInt64 d * 1000000000)

/-- The value of the parsed weekday/day/month/... fields of an Expires
timestamp; the zero value (what Go calls time.Time zero, reported by IsZero)
is year 1, January 1, midnight. -/
structure GoTime where
  year : Nat := 1
  month : Nat := 1
  day : Nat := 1
  hour : Nat := 0
  minute : Nat := 0
  second : Nat := 0
deriving DecidableEq, Repr

/-- The zero time.Time value. -/
def GoTime.zero : GoTime := {}

/-- time.Time.IsZero: true exactly for the zero value. -/
def GoTime.IsZero (t : GoTime) : Bool := t == GoTime.zero

/-- Is the byte an ASCII digit. -/
def isDigitByte (c : Nat) : Bool := 48 ≤ c && c ≤ 57

/-- Numeric value of two digit bytes. -/
def twoDigits (a b : Nat) : Nat := (a - 48) * 10 + (b - 48)

/-- Month number of a three-letter month-name byte triple, if valid. -/
def monthOf (m : Str) : Option Nat :=
  if m = bytesOf "Jan" then some 1 else if m = bytesOf "Feb" then some 2
  else if m = bytesOf "Mar" then some 3 else if m = bytesOf "Apr" then some 4
  else if m = bytesOf "May" then some 5 else if m = bytesOf "Jun" then some 6
  else if m = bytesOf "Jul" then some 7 else if m = bytesOf "Aug" then some 8
  else if m = bytesOf "Sep" then some 9 else if m = bytesOf "Oct" then some 10
  else if m = bytesOf "Nov" then some 11 else if m = bytesOf "Dec" then some 12
  else none

/-- Is the byte triple a three-letter weekday name. -/
def validWeekday (w : Str) : Bool :=
  w = bytesOf "Mon" || w = bytesOf "Tue" || w = bytesOf "Wed" || w = bytesOf "Thu" ||
    w = bytesOf "Fri" || w = bytesOf "Sat" || w = bytesOf "Sun"

/-- Modelled from the spec: ParseExpires delegates to time.Parse of the Go
standard library (not part of this repository), which per the spec accepts
exactly the strict RFC 1123 layout Mon, 02 Jan 2006 15:04:05 GMT and errors
on any deviation (different timezone label, missing weekday, missing zone).
No claim exercises this parser; the cacheability engine only observes whether
it succeeded with a non-zero time. -/
def ParseExpires (s : Str) : Except Unit GoTime :=
  match s with
  | [w1, w2, w3, 44, 32, d1, d2, 32, m1, m2, m3, 32, y1, y2, y3, y4, 32,
     h1, h2, 58, n1, n2, 58, x1, x2, 32, 71, 77, 84] =>
    if validWeekday [w1, w2, w3] then
      match monthOf [m1, m2, m3] with
      | some mo =>
        if [d1, d2, y1, y2, y3, y4, h1, h2, n1, n2, x1, x2].all isDigitByte then
          let day := twoDigits d1 d2
          let hour := twoDigits h1 h2
          let minute := twoDigits n1 n2
          let second := twoDigits x1 x2
          let year := (twoDigits y1 y2) * 100 + twoDigits y3 y4
          if 1 ≤ day ∧ day ≤ 31 ∧ hour ≤ 23 ∧ minute ≤ 59 ∧ second ≤ 59 then
            .ok { year := year, month := mo, day := day, hour := hour, minute := minute, second := second }
          else .error ()
        else .error ()
      | none => .error ()
    else .error ()
  | _ => .error ()

/-- ASCII lower-casing of one byte (strings.ToLower; every directive name in
the matched vocabulary is ASCII). -/
def asciiToLower (c : Nat) : Nat := if 65 ≤ c ∧ c ≤ 90 then c + 32 else c

/-- Is the byte an ASCII whitespace character (the ASCII part of
unicode.IsSpace, used by strings.Fields). -/
def isAsciiSpace (c : Nat) : Bool := c == 32 || (9 ≤ c && c ≤ 13)

/-- strings.Fields: split around runs of whitespace, dropping empty pieces. -/
def fields (s : Str) : List Str := (s.splitOnP (isAsciiSpace ·)).filter (fun p => !p.isEmpty)

/-- One collected classification error: the wrapped error
invalid value for NAME: ERR produced with fmt.Errorf. -/
structure DirectiveError where
  directive : Str
  err : DeltaSecondsError
deriving DecidableEq, Repr

/-- ExtensionDirective of the httpcache package: the same shape as the
generic Directive; Go converts with a direct type conversion. -/
abbrev ExtensionDirective := cachecontrol.Directive

/-- RequestDirectives from the httpcache package.  Durations are int64
nanosecond counts (time.Duration), modelled as Int.  The defaults are the Go
zero value. -/
structure RequestDirectives where
  MaxAge : Int := 0
  MaxStale : Int := 0
  MinFresh : Int := 0
  NoCache : Bool := false
  NoStore : Bool := false
  NoTransform : Bool := false
  OnlyIfCached : Bool := false
  Extensions : List ExtensionDirective := []
deriving DecidableEq, Repr

/-- ResponseDirectives from the httpcache package.  NoCacheHeaders and
PrivateHeaders distinguish a nil Go slice (none) from a present, possibly
empty one (some). -/
structure ResponseDirectives where
  MaxAge : Int := 0
  MustRevalidate : Bool := false
  MustUnderstand : Bool := false
  NoCache : Bool := false
  NoCacheHeaders : Option (List Str) := none
  NoStore : Bool := false
  NoTransform : Bool := false
  Private : Bool := false
  PrivateHeaders : Option (List Str) := none
  ProxyRevalidate : Bool := false
  Public : Bool := false
  SMaxAge : Int := 0
  Extensions : List ExtensionDirective := []
deriving DecidableEq, Repr

/-- The switch body of ParseRequestDirectives for one directive. -/
def classifyRequestStep (c : RequestDirectives) (errs : List DirectiveError)
    (d : cachecontrol.Directive) : RequestDirectives × List DirectiveError :=
  let name := d.Name.map asciiToLower
  if name = bytesOf "max-age" then
    match ParseAge d.Value with
    | .error e => (c, errs ++ [{ directive := bytesOf "max-age", err := e }])
    | .ok dur => ({ c with MaxAge := dur }, errs)
  else if name = bytesOf "max-stale" then
    match ParseAge d.Value with
    | .error e => (c, errs ++ [{ directive := bytesOf "max-stale", err := e }])
    | .ok dur => ({ c with MaxStale := dur }, errs)
  else if name = bytesOf "min-fresh" then
    match ParseAge d.Value with
    | .error e => (c, errs ++ [{ directive := bytesOf "min-fresh", err := e }])
    | .ok dur => ({ c with MinFresh := dur }, errs)
  else if name = bytesOf "no-cache" then ({ c with NoCache := true }, errs)
  else if name = bytesOf "no-store" then ({ c with NoStore := true }, errs)
  else if name = bytesOf "no-transform" then ({ c with NoTransform := true }, errs)
  else if name = bytesOf "only-if-cached" then ({ c with OnlyIfCached := true }, errs)
  else ({ c with Extensions := c.Extensions ++ [d] }, errs)

/-- ParseRequestDirectives from the httpcache package.  The error list models
the errors joined by errors.Join; a nil returned error corresponds to the
empty list. -/
def ParseRequestDirectives (header : Str) : RequestDirectives × List DirectiveError :=
  (cachecontrol.Parse header).foldl
    (fun p d => classifyRequestStep p.1 p.2 d) ({}, [])

/-- The switch body of ParseResponseDirectives for one directive. -/
def classifyResponseStep (c : ResponseDirectives) (errs : List DirectiveError)
    (d : cachecontrol.Directive) : ResponseDirectives × List DirectiveError :=
  let name := d.Name.map asciiToLower
  if name = bytesOf "max-age" then
    match ParseAge d.Value with
    | .error e => (c, errs ++ [{ directive := bytesOf "max-age", err := e }])
    | .ok dur => ({ c with MaxAge := dur }, errs)
  else if name = bytesOf "must-revalidate" then ({ c with MustRevalidate := true }, errs)
  else if name = bytesOf "must-understand" then ({ c with MustUnderstand := true }, errs)
  else if name = bytesOf "no-cache" then
    ({ c with NoCache := true,
              NoCacheHeaders := if d.HasValue then some (fields d.Value) else none }, errs)
  else if name = bytesOf "no-store" then ({ c with NoStore := true }, errs)
  else if name = bytesOf "no-transform" then ({ c with NoTransform := true }, errs)
  else if name = bytesOf "private" then
    ({ c with Private := true,
              PrivateHeaders := if d.HasValue then some (fields d.Value) else none }, errs)
  else if name = bytesOf "proxy-revalidate" then ({ c with ProxyRevalidate := true }, errs)
  else if name = bytesOf "public" then ({ c with Public := true }, errs)
  else if name = bytesOf "s-maxage" then
    match ParseAge d.Value with
    | .error e => (c, errs ++ [{ directive := bytesOf "s-maxage", err := e }])
    | .ok dur => ({ c with SMaxAge := dur }, errs)
  else ({ c with Extensions := c.Extensions ++ [d] }, errs)

/-- ParseResponseDirectives from the httpcache package.  The error list
models the errors joined by errors.Join; a nil returned error corresponds to
the empty list. -/
def ParseResponseDirectives (header : Str) : ResponseDirectives × List DirectiveError :=
  (cachecontrol.Parse header).foldl
    (fun p d => classifyResponseStep p.1 p.2 d) ({}, [])

/-- The http.Header map restricted to what the embedded operations read: a
lookup from field name to the list of values (a missing key yields the empty
list, as a Go map access does). -/
abbrev HeaderMap := Str → List Str

/-- The header map with no entries. -/
def emptyHeader : HeaderMap := fun _ => []

/-- Request from the httpcache package.  The URL field is omitted: no
embedded operation reads it. -/
structure Request where
  Method : Str
  Header : HeaderMap

/-- Response from the httpcache package. -/
structure Response where
  StatusCode : Int
  Header : HeaderMap
  Trailer : HeaderMap

/-- Request.Authorized: the request carries at least one Authorization
value. -/
def Request.Authorized (r : Request) : Bool :=
  !(r.Header (bytesOf "Authorization")).isEmpty

/-- Request.Directives: parse the joined Cache-Control request header. -/
def Request.Directives (r : Request) : RequestDirectives × List DirectiveError :=
  ParseRequestDirectives (List.intercalate (bytesOf ", ") (r.Header (bytesOf "Cache-Control")))

/-- Response.Directives: parse the joined Cache-Control response header. -/
def Response.Directives (r : Response) : ResponseDirectives × List DirectiveError :=
  ParseResponseDirectives (List.intercalate (bytesOf ", ") (r.Header (bytesOf "Cache-Control")))

/-- Response.Expires: the zero time when the header is absent, otherwise the
parsed joined header value.  Go time.Parse returns the zero time.Time
together with the error when parsing fails, so a malformed Expires behaves as
absent inside CanStore.  The Bool component models whether an error was
returned. -/
def Response.Expires (r : Response) : GoTime × Bool :=
  let ss := r.Header (bytesOf "Expires")
  if ss.isEmpty then (GoTime.zero, false)
  else
    match ParseExpires (List.intercalate (bytesOf ", ") ss) with
    | .ok t => (t, false)
    | .error _ => (GoTime.zero, true)

/-- Config from the httpcache package.  The nilable function-valued policy
fields are modelled as Option; the defaults are the Go zero value. -/
structure Config where
  CacheableByExtension : Option (Request → Response → Bool) := none
  CanUnderstandResponseCode : Option (Int → Bool) := none
  IgnoreRequestDirectiveNoStore : Bool := false
  IsHeuristicallyCacheableStatusCode : Option (Int → Bool) := none
  Private : Bool := false
  RespectPrivateHeaders : Bool := false
  StoreProxyHeaders : Bool := false
  SupportedRequestMethod : Option (Str → Bool) := none

/-- HeuristicallyCacheableStatusCodes from the httpcache package (the
net/http status constants spelled out). -/
def HeuristicallyCacheableStatusCodes : List Int :=
  [200, 203, 204, 206, 300, 301, 308, 404, 405, 410, 414, 501]

/-- Config.cacheableByExtension: false when no hook is configured. -/
def Config.cacheableByExtension (c : Config) (req : Request) (resp : Response) : Bool :=
  match c.CacheableByExtension with
  | none => false
  | some f => f req resp

/-- Config.canUnderstandResponseCode: false when no hook is configured. -/
def Config.canUnderstandResponseCode (c : Config) (code : Int) : Bool :=
  match c.CanUnderstandResponseCode with
  | none => false
  | some f => f code

/-- Config.isHeuristicallyCacheableStatusCode: membership in
HeuristicallyCacheableStatusCodes when no hook is configured. -/
def Config.isHeuristicallyCacheableStatusCode (c : Config) (code : Int) : Bool :=
  match c.IsHeuristicallyCacheableStatusCode with
  | none => HeuristicallyCacheableStatusCodes.contains code
  | some f => f code

/-- Config.supportedRequestMethod: GET, HEAD and QUERY when no hook is
configured. -/
def Config.supportedRequestMethod (c : Config) (method : Str) : Bool :=
  match c.SupportedRequestMethod with
  | none => method == bytesOf "GET" || method == bytesOf "HEAD" || method == bytesOf "QUERY"
  | some f => f method

/-- Go len of a nilable slice: nil has length zero. -/
def optLen (l : Option (List Str)) : Nat :=
  match l with
  | none => 0
  | some l => l.length

/-- Config.CanStore from the httpcache package: the ordered RFC 9111 section
3 storage preconditions.  The freshness-signal switch is rendered as a
short-circuiting disjunction, which evaluates the cases in the same order
with the first match winning. -/
def Config.CanStore (c : Config) (req : Request) (resp : Response) : Bool :=
  if !(c.supportedRequestMethod req.Method) then false
  else if resp.StatusCode < 200 then false
  else
    let respDirectives := (resp.Directives).1
    if (resp.StatusCode == 206 || resp.StatusCode == 304 || respDirectives.MustUnderstand) &&
        !(c.canUnderstandResponseCode resp.StatusCode) then false
    else if respDirectives.NoStore then false
    else if !c.Private && respDirectives.Private &&
        (!c.RespectPrivateHeaders || optLen respDirectives.PrivateHeaders == 0) then false
    else if !c.Private && req.Authorized && !respDirectives.MustRevalidate &&
        !respDirectives.Public && decide (respDirectives.SMaxAge ≤ 0) then false
    else
      let respExpires := (resp.Expires).1
      if !(respDirectives.Public ||
          (c.Private && respDirectives.Private) ||
          !respExpires.IsZero ||
          decide (respDirectives.MaxAge > 0) ||
          (!c.Private && decide (respDirectives.SMaxAge > 0)) ||
          c.cacheableByExtension req resp ||
          c.isHeuristicallyCacheableStatusCode resp.StatusCode) then false
      else if !c.IgnoreRequestDirectiveNoStore && (req.Directives).1.NoStore then false
      else true

/-- The exact numeric value denoted by a string of ASCII digits (no modular
wrap): the mathematical reading of the delta-seconds grammar, used to state
the saturation property of ParseAge. -/
def digitsVal (s : Str) : Nat := s.foldl (fun v c => v * 10 + (c - 48)) 0

/-- A GET request without headers. -/
def getRequest : Request := { Method := bytesOf "GET", Header := emptyHeader }

/-- A GET request whose only header is an Authorization value. -/
def authorizedGetRequest : Request :=
  { Method := bytesOf "GET",
    Header := fun k => if k = bytesOf "Authorization" then [bytesOf "token"] else [] }

/-- A 200 response whose only header is the given Cache-Control value. -/
def responseWithCC (cc : String) : Response :=
  { StatusCode := 200,
    Header := fun k => if k = bytesOf "Cache-Control" then [bytesOf cc] else [],
    Trailer := emptyHeader }

/-- A 200 response without headers. -/
def plainOkResponse : Response :=
  { StatusCode := 200, Header := emptyHeader, Trailer := emptyHeader }

end httpcache

/-- The token list ts, read in order, has contiguous, non-empty byte spans
that start at a and end at b: the formalisation of covering the byte range
from a to b exactly once, with no gaps and no overlaps. -/
def SpansFrom : Nat → List cachecontrol.Token → Nat → Prop
  | a, [], b => a = b
  | a, t :: ts, b => t.start = a ∧ a < t.endPos ∧ SpansFrom t.endPos ts b

-- Regression checks against the Go unit tests of the classifier and CanStore.

example : httpcache.ParseResponseDirectives
    (bytesOf "max-age=100, no-cache=\"Header-1 Header-2\", private=\"Header-3 Header-4\", s-maxage=200") =
    ({ MaxAge := 100000000000, NoCache := true,
       NoCacheHeaders := some [bytesOf "Header-1", bytesOf "Header-2"],
       Private := true, PrivateHeaders := some [bytesOf "Header-3", bytesOf "Header-4"],
       SMaxAge := 200000000000 }, []) := by decide

example : httpcache.ParseResponseDirectives (bytesOf "no-cache, max-age=test, no-store") =
    ({ NoCache := true, NoStore := true },
     [{ directive := bytesOf "max-age", err := .invalid }]) := by decide

example : httpcache.Config.CanStore {} { Method := bytesOf "GET", Header := httpcache.emptyHeader }
    { StatusCode := 200, Header := httpcache.emptyHeader, Trailer := httpcache.emptyHeader } = true := by
  decide

example : httpcache.Config.CanStore {} { Method := bytesOf "POST", Header := httpcache.emptyHeader }
    { StatusCode := 200, Header := httpcache.emptyHeader, Trailer := httpcache.emptyHeader } = false := by
  decide

-- Regression checks against the Go unit tests of Tokenize.

example : cachecontrol.Tokenize (bytesOf "name=value") =
    [{ type := .text, start := 0, endPos := 4, text := bytesOf "name" },
     { type := .equals, start := 4, endPos := 5, text := bytesOf "=" },
     { type := .text, start := 5, endPos := 10, text := bytesOf "value" }] := by decide

example : cachecontrol.Tokenize (bytesOf "\"back\\slash\"") =
    [{ type := .text, start := 0, endPos := 12, text := bytesOf "backslash" }] := by decide

example : cachecontrol.Tokenize (bytesOf "\"missing ending quote") =
    [{ type := .text, start := 0, endPos := 8, text := bytesOf "\"missing" },
     { type := .space, start := 8, endPos := 9, text := bytesOf " " },
     { type := .text, start := 9, endPos := 15, text := bytesOf "ending" },
     { type := .space, start := 15, endPos := 16, text := bytesOf " " },
     { type := .text, start := 16, endPos := 21, text := bytesOf "quote" }] := by decide

example : cachecontrol.Tokenize (bytesOf "\"\\\"") =
    [{ type := .text, start := 0, endPos := 3, text := bytesOf "\"\\\"" }] := by decide

-- Regression checks against the Go unit tests of Parse.

example : cachecontrol.Parse (bytesOf "=") = [{ HasValue := true }] := by decide

example : cachecontrol.Parse (bytesOf "==") = [{ Value := bytesOf "=", HasValue := true }] := by decide

example : cachecontrol.Parse (bytesOf ",private,") = [{ Name := bytesOf "private" }] := by decide

example : cachecontrol.Parse (bytesOf " private , no-cache , no-store=\"header1 header2 header3\" ") =
    [{ Name := bytesOf "private" },
     { Name := bytesOf "no-cache" },
     { Name := bytesOf "no-store", Value := bytesOf "header1 header2 header3", HasValue := true }] := by
  decide

example : cachecontrol.Parse (bytesOf "directive1, directive2=\"missing ending quote, directive3=value") =
    [{ Name := bytesOf "directive1" },
     { Name := bytesOf "directive2", Value := bytesOf "\"missing ending quote", HasValue := true },
     { Name := bytesOf "directive3", Value := bytesOf "value", HasValue := true }] := by decide

example : cachecontrol.Parse (bytesOf "no store=header1") =
    [{ Name := bytesOf "no store", Value := bytesOf "header1", HasValue := true }] := by decide

/-- Claim C3: a GET request and a 200 response, neither carrying any header,
are storable under the zero-value shared-mode configuration, because GET is
in the default supported-method set and 200 is in the default heuristically
cacheable status-code set. -/
theorem claim_C3 :
    httpcache.Config.CanStore {} httpcache.getRequest httpcache.plainOkResponse = true ∧
    httpcache.Config.supportedRequestMethod {} (bytesOf "GET") = true ∧
    (200 : Int) ∈ httpcache.HeuristicallyCacheableStatusCodes ∧
    httpcache.Config.isHeuristicallyCacheableStatusCode {} 200 = true := by decide

/-- A delimiter byte at j stops the boundary scan at j. -/
theorem cachecontrol.nextBoundary_stop (s : Str) (j : Nat) (hj : j < s.length)
    (hd : cachecontrol.isDelimiterByte (s.get ⟨j, hj⟩) = true) :
    cachecontrol.nextBoundary s j = j := by
  simp only [cachecontrol.nextBoundary]
  rw [List.drop_eq_getElem_cons hj, List.takeWhile_cons_of_neg]
  · rfl
  · simp only [List.get_eq_getElem] at hd
    simp [hd]

/-- A non-delimiter byte at j lets the boundary scan continue at j plus
one. -/
theorem cachecontrol.nextBoundary_step (s : Str) (j : Nat) (hj : j < s.length)
    (hd : cachecontrol.isDelimiterByte (s.get ⟨j, hj⟩) = false) :
    cachecontrol.nextBoundary s j = cachecontrol.nextBoundary s (j + 1) := by
  simp only [cachecontrol.nextBoundary]
  rw [List.drop_eq_getElem_cons hj, List.takeWhile_cons_of_pos]
  · simp only [List.length_cons]
    omega
  · simp only [List.get_eq_getElem] at hd
    simp [hd]

/-- Past the end of the input the boundary scan stops immediately. -/
theorem cachecontrol.nextBoundary_end (s : Str) (j : Nat) (hj : s.length ≤ j) :
    cachecontrol.nextBoundary s j = j := by
  simp [cachecontrol.nextBoundary, List.drop_eq_nil_of_le hj]

/-- The main tokenizer loop, run with sufficient fuel from index j with a
text run open since ts, first emits exactly the Text token spanning from ts
to the next control/space/comma/equals boundary (or the end of the input),
whose text is the verbatim byte slice of that span. -/
theorem cachecontrol.tokenizeAux_run (s : Str) :
    ∀ (fuel j ts : Nat), ts < j → j ≤ s.length → s.length - j < fuel →
      ∃ rest, cachecontrol.tokenizeAux s fuel j (some ts) =
        { type := .text, start := ts, endPos := cachecontrol.nextBoundary s j,
          text := byteSlice s ts (cachecontrol.nextBoundary s j) } :: rest := by
  intro fuel
  induction fuel with
  | zero => intro j ts _ _ hfuel; exact absurd hfuel (Nat.not_lt_zero _)
  | succ fuel ih =>
    intro j ts hts hj hfuel
    by_cases hlt : j < s.length
    · rw [cachecontrol.tokenizeAux, dif_pos hlt]
      by_cases hctl : cachecontrol.isControlCharacterOrSpace (s.get ⟨j, hlt⟩) = true
      · have hdel : cachecontrol.isDelimiterByte (s.get ⟨j, hlt⟩) = true := by
          simp only [cachecontrol.isDelimiterByte, hctl, Bool.true_or]
        rw [if_pos hctl, cachecontrol.nextBoundary_stop s j hlt hdel]
        simp only [cachecontrol.flushText, if_pos hts, List.singleton_append]
        exact ⟨_, rfl⟩
      · rw [if_neg hctl]
        by_cases hcomma : (s.get ⟨j, hlt⟩ == 44) = true
        · have hdel : cachecontrol.isDelimiterByte (s.get ⟨j, hlt⟩) = true := by
            simp only [cachecontrol.isDelimiterByte, hcomma, Bool.or_true, Bool.true_or]
          rw [if_pos hcomma, cachecontrol.nextBoundary_stop s j hlt hdel]
          simp only [cachecontrol.flushText, if_pos hts, List.singleton_append]
          exact ⟨_, rfl⟩
        · rw [if_neg hcomma]
          by_cases heqs : (s.get ⟨j, hlt⟩ == 61) = true
          · have hdel : cachecontrol.isDelimiterByte (s.get ⟨j, hlt⟩) = true := by
              simp only [cachecontrol.isDelimiterByte, heqs, Bool.or_true]
            rw [if_pos heqs, cachecontrol.nextBoundary_stop s j hlt hdel]
            simp only [cachecontrol.flushText, if_pos hts, List.singleton_append]
            exact ⟨_, rfl⟩
          · rw [if_neg heqs]
            rw [if_neg (by simp), if_neg (by simp)]
            rw [Bool.not_eq_true] at hctl hcomma heqs
            have hdel : cachecontrol.isDelimiterByte (s.get ⟨j, hlt⟩) = false := by
              simp only [cachecontrol.isDelimiterByte, hctl, hcomma, heqs, Bool.or_false]
            rw [cachecontrol.nextBoundary_step s j hlt hdel]
            exact ih (j + 1) ts (by omega) hlt (by omega)
    · rw [cachecontrol.tokenizeAux, dif_neg hlt]
      have hj2 : j = s.length := by omega
      subst hj2
      rw [cachecontrol.nextBoundary_end s s.length le_rfl]
      exact ⟨[], by simp only [cachecontrol.flushText, if_pos hts]⟩

/-- Counterexample to claim C7: the five-byte input x-quote-a-b-c contains a
double quote with no matching closing quote before the end of the input, yet
Tokenize does not emit that quote as the start of a text run: the quote at
byte offset 1 merely extends the run already open since offset 0, and no
emitted token starts at offset 1. -/
theorem claim_C7_counterexample :
    cachecontrol.Tokenize (bytesOf "x\"abc") =
      [{ type := .text, start := 0, endPos := 5, text := bytesOf "x\"abc" }] ∧
    ((cachecontrol.Tokenize (bytesOf "x\"abc")).map cachecontrol.Token.start).contains 1 = false := by
  decide

/-- Claim C7 as amended: for every input and every position where the
tokenizer encounters a double quote with no text run already open and the
quoted-string scan finds no closing quote before the end of the input, the
quoted interpretation is abandoned and the very next emitted token is an
ordinary Text token that starts at the opening quote, ends at the next
control/space/comma/equals boundary (or the end of the input), and carries
the verbatim bytes of that span including the leading quote; in particular
the four-byte input quote-a-b-c yields one Text token with that literal
text, and a comma after the broken quote terminates the run. -/
theorem claim_C7_amended :
    (∀ (s : Str) (fuel i : Nat) (hi : i < s.length),
        s.length - i < fuel →
        s.get ⟨i, hi⟩ = 34 →
        cachecontrol.scanQuoted s i s.length (i + 1) false [] (i + 1) = none →
        ∃ rest, cachecontrol.tokenizeAux s fuel i none =
          { type := .text, start := i, endPos := cachecontrol.nextBoundary s (i + 1),
            text := byteSlice s i (cachecontrol.nextBoundary s (i + 1)) } :: rest) ∧
    cachecontrol.Tokenize (bytesOf "\"abc") =
      [{ type := .text, start := 0, endPos := 4, text := bytesOf "\"abc" }] ∧
    cachecontrol.Tokenize (bytesOf "\"ab,c") =
      [{ type := .text, start := 0, endPos := 3, text := bytesOf "\"ab" },
       { type := .comma, start := 3, endPos := 4, text := bytesOf "," },
       { type := .text, start := 4, endPos := 5, text := bytesOf "c" }] := by
  refine ⟨?_, by decide, by decide⟩
  intro s fuel i hi hfuel hq hnone
  cases fuel with
  | zero => omega
  | succ fuel =>
    rw [cachecontrol.tokenizeAux, dif_pos hi]
    have h1 : ¬(cachecontrol.isControlCharacterOrSpace (s.get ⟨i, hi⟩) = true) := by
      rw [hq]; decide
    have h2 : ¬((s.get ⟨i, hi⟩ == 44) = true) := by rw [hq]; decide
    have h3 : ¬((s.get ⟨i, hi⟩ == 61) = true) := by rw [hq]; decide
    have h4 : ((Option.isNone (none : Option Nat)) && (s.get ⟨i, hi⟩ == 34)) = true := by
      rw [hq]; decide
    rw [if_neg h1, if_neg h2, if_neg h3, if_pos h4, hnone]
    exact cachecontrol.tokenizeAux_run s fuel (i + 1) i (Nat.lt_succ_self i) hi (by omega)

/-- Witness for the amended claim C7: the input quote-a-b-c at position 0,
where the quoted scan finds no closing quote and the head of the emitted
token list is the recovered four-byte Text token. -/
theorem claim_C7_amended_witness :
    cachecontrol.scanQuoted (bytesOf "\"abc") 0 (bytesOf "\"abc").length 1 false [] 1 = none ∧
    (cachecontrol.tokenizeAux (bytesOf "\"abc") 5 0 none).head? =
      some { type := .text, start := 0, endPos := 4, text := bytesOf "\"abc" } := by
  refine ⟨by decide, ?_⟩
  obtain ⟨rest, heq⟩ := claim_C7_amended.1 (bytesOf "\"abc") 5 0 (by decide) (by decide)
    (by decide) (by decide)
  rw [heq, List.head?_cons]
  decide

/-- Claim C8: duplicate known numeric directives keep the last successfully
parsed value: max-age=100, max-age=200 classifies to MaxAge of 200 seconds
with no error; a later numeric parse failure is collected while the field
keeps its previously parsed value and the remaining directives are still
classified. -/
theorem claim_C8 :
    httpcache.ParseResponseDirectives (bytesOf "max-age=100, max-age=200") =
      ({ MaxAge := 200000000000 }, []) ∧
    httpcache.ParseResponseDirectives (bytesOf "no-cache, max-age=bad, no-store") =
      ({ NoCache := true, NoStore := true },
       [{ directive := bytesOf "max-age", err := .invalid }]) ∧
    httpcache.ParseResponseDirectives (bytesOf "max-age=100, max-age=bad") =
      ({ MaxAge := 100000000000 },
       [{ directive := bytesOf "max-age", err := .invalid }]) := by decide

/-- Claim C9: a no-cache or private directive with a value stores the value
split on whitespace as the header-name list, and a later value-less
occurrence of the same directive resets the list to absent while the flag
stays true. -/
theorem claim_C9 :
    httpcache.ParseResponseDirectives (bytesOf "private=\"X Y\", private") =
      ({ Private := true, PrivateHeaders := none }, []) ∧
    httpcache.ParseResponseDirectives (bytesOf "private=\"X Y\"") =
      ({ Private := true, PrivateHeaders := some [bytesOf "X", bytesOf "Y"] }, []) ∧
    httpcache.ParseResponseDirectives (bytesOf "no-cache=\"X Y\", no-cache") =
      ({ NoCache := true, NoCacheHeaders := none }, []) := by decide

/-- Claim C1: in shared-cache mode, a request carrying an Authorization
header can only be stored when the response carries must-revalidate, public
or a positive s-maxage; when the parsed response directives have none of
those, CanStore returns false. -/
theorem claim_C1 (cfg : httpcache.Config) (req : httpcache.Request) (resp : httpcache.Response)
    (hPriv : cfg.Private = false)
    (hAuth : req.Authorized = true)
    (hMR : (resp.Directives).1.MustRevalidate = false)
    (hPub : (resp.Directives).1.Public = false)
    (hSMax : (resp.Directives).1.SMaxAge ≤ 0) :
    httpcache.Config.CanStore cfg req resp = false := by
  simp only [httpcache.Config.CanStore, hPriv, hAuth, hMR, hPub, decide_eq_true hSMax,
    Bool.not_false, Bool.not_true, Bool.true_and, Bool.and_true]
  split
  · rfl
  · split
    · rfl
    · split
      · rfl
      · split
        · rfl
        · split
          · rfl
          · rfl

/-- Witness for claim C1: the shared zero-value configuration, a GET request
with an Authorization header, and a response with only max-age=100. -/
theorem claim_C1_witness :
    ({} : httpcache.Config).Private = false ∧
    httpcache.Request.Authorized httpcache.authorizedGetRequest = true ∧
    ((httpcache.responseWithCC "max-age=100").Directives).1.MustRevalidate = false ∧
    ((httpcache.responseWithCC "max-age=100").Directives).1.Public = false ∧
    ((httpcache.responseWithCC "max-age=100").Directives).1.SMaxAge ≤ 0 ∧
    httpcache.Config.CanStore {} httpcache.authorizedGetRequest
      (httpcache.responseWithCC "max-age=100") = false :=
  ⟨rfl, by decide, by decide, by decide, by decide,
    claim_C1 {} httpcache.authorizedGetRequest (httpcache.responseWithCC "max-age=100")
      rfl (by decide) (by decide) (by decide) (by decide)⟩

/-- Claim C2: a shared cache (not private-mode, not respecting header-scoped
private) never stores a response whose directives carry private; and the
concrete pair of a bare GET request and a 200 response whose only directive
is a value-less private is storable by a private-mode cache. -/
theorem claim_C2 :
    (∀ (cfg : httpcache.Config) (req : httpcache.Request) (resp : httpcache.Response),
      cfg.Private = false → cfg.RespectPrivateHeaders = false →
      (resp.Directives).1.Private = true →
      httpcache.Config.CanStore cfg req resp = false) ∧
    httpcache.Config.CanStore { Private := true } httpcache.getRequest
      (httpcache.responseWithCC "private") = true := by
  refine ⟨fun cfg req resp hPriv hRPH hP => ?_, by decide⟩
  simp only [httpcache.Config.CanStore, hPriv, hRPH, hP,
    Bool.not_false, Bool.not_true, Bool.true_and, Bool.and_true, Bool.false_and]
  split
  · rfl
  · split
    · rfl
    · split
      · rfl
      · split
        · rfl
        · rfl

/-- Witness for claim C2: both sides at the concrete request/response pair
of the claim. -/
theorem claim_C2_witness :
    httpcache.Config.CanStore {} httpcache.getRequest
      (httpcache.responseWithCC "private") = false ∧
    httpcache.Config.CanStore { Private := true } httpcache.getRequest
      (httpcache.responseWithCC "private") = true :=
  ⟨claim_C2.1 {} httpcache.getRequest (httpcache.responseWithCC "private") rfl rfl (by decide),
    claim_C2.2⟩

/-- The space scan never moves backwards. -/
theorem cachecontrol.scanSpaces_ge (s : Str) (j : Nat) : j ≤ cachecontrol.scanSpaces s j :=
  Nat.le_add_right _ _

/-- The space scan never runs past the end of the input. -/
theorem cachecontrol.scanSpaces_le (s : Str) (j : Nat) (h : j ≤ s.length) :
    cachecontrol.scanSpaces s j ≤ s.length := by
  have h1 : ((s.drop j).takeWhile cachecontrol.isControlCharacterOrSpace).length ≤ (s.drop j).length :=
    (List.takeWhile_prefix _).length_le
  simp only [cachecontrol.scanSpaces]
  simp only [List.length_drop] at h1
  omega

/-- When the quoted-string scan finds a closing quote, its index is at least
the starting index and inside the input. -/
theorem cachecontrol.scanQuoted_some (s : Str) (i0 : Nat) :
    ∀ (fuel j : Nat) (esc : Bool) (u : Str) (ut j' : Nat) (t : Str),
      cachecontrol.scanQuoted s i0 fuel j esc u ut = some (j', t) → j ≤ j' ∧ j' < s.length := by
  intro fuel
  induction fuel with
  | zero => intro j esc u ut j' t h; exact absurd h (by simp [cachecontrol.scanQuoted])
  | succ fuel ih =>
    intro j esc u ut j' t h
    rw [cachecontrol.scanQuoted] at h
    by_cases hj : j < s.length
    · rw [dif_pos hj] at h
      by_cases hesc : esc = true
      · rw [if_pos hesc] at h
        have := ih _ _ _ _ _ _ h
        omega
      · rw [if_neg hesc] at h
        by_cases h92 : (s.get ⟨j, hj⟩ == 92) = true
        · rw [if_pos h92] at h
          have := ih _ _ _ _ _ _ h
          omega
        · rw [if_neg h92] at h
          by_cases h34 : (s.get ⟨j, hj⟩ == 34) = true
          · rw [if_pos h34] at h
            obtain ⟨h1, _⟩ := Option.some.inj h
            omega
          · rw [if_neg h34] at h
            have := ih _ _ _ _ _ _ h
            omega
    · rw [dif_neg hj] at h
      exact absurd h (by simp)

/-- Span chains concatenate. -/
theorem SpansFrom_append :
    ∀ {xs ys : List cachecontrol.Token} {a b c : Nat},
      SpansFrom a xs b → SpansFrom b ys c → SpansFrom a (xs ++ ys) c := by
  intro xs
  induction xs with
  | nil =>
    intro ys a b c h1 h2
    simp only [SpansFrom] at h1
    simpa [h1] using h2
  | cons t ts ih =>
    intro ys a b c h1 h2
    obtain ⟨hs, hlt, hrest⟩ := h1
    exact ⟨hs, hlt, ih hrest h2⟩

/-- The text-run flush emits a chain from the run start (or the current
index when no run is open) to the current index. -/
theorem cachecontrol.flushText_spans (s : Str) (ts : Option Nat) (i : Nat)
    (hts : ∀ t, ts = some t → t < i) :
    SpansFrom (ts.getD i) (cachecontrol.flushText s ts i) i := by
  cases ts with
  | none => exact rfl
  | some t =>
    have ht := hts t rfl
    simp only [cachecontrol.flushText, Option.getD, if_pos ht]
    exact ⟨rfl, ht, rfl⟩

/-- The main tokenizer loop, run with sufficient fuel from index i with an
open run starting at textStart (none when no run is open), produces a token
list whose spans chain from the run start to the end of the input. -/
theorem cachecontrol.tokenizeAux_spans (s : Str) :
    ∀ (fuel i : Nat) (ts : Option Nat), i ≤ s.length → s.length - i < fuel →
      (∀ t, ts = some t → t < i) →
      SpansFrom (ts.getD i) (cachecontrol.tokenizeAux s fuel i ts) s.length := by
  intro fuel
  induction fuel with
  | zero => intro i ts _ hfuel _; exact absurd hfuel (Nat.not_lt_zero _)
  | succ fuel ih =>
    intro i ts hi hfuel hts
    by_cases hlt : i < s.length
    · rw [cachecontrol.tokenizeAux, dif_pos hlt]
      by_cases hctl : cachecontrol.isControlCharacterOrSpace (s.get ⟨i, hlt⟩) = true
      · rw [if_pos hctl]
        have hge := cachecontrol.scanSpaces_ge s (i + 1)
        have hle := cachecontrol.scanSpaces_le s (i + 1) hlt
        refine SpansFrom_append (cachecontrol.flushText_spans s ts i hts)
          ⟨rfl, show i < cachecontrol.scanSpaces s (i + 1) by omega, ?_⟩
        exact ih (cachecontrol.scanSpaces s (i + 1)) none hle (by omega) (by simp)
      · rw [if_neg hctl]
        by_cases hcomma : (s.get ⟨i, hlt⟩ == 44) = true
        · rw [if_pos hcomma]
          refine SpansFrom_append (cachecontrol.flushText_spans s ts i hts)
            ⟨rfl, show i < i + 1 by omega, ?_⟩
          exact ih (i + 1) none hlt (by omega) (by simp)
        · rw [if_neg hcomma]
          by_cases heq : (s.get ⟨i, hlt⟩ == 61) = true
          · rw [if_pos heq]
            refine SpansFrom_append (cachecontrol.flushText_spans s ts i hts)
              ⟨rfl, show i < i + 1 by omega, ?_⟩
            exact ih (i + 1) none hlt (by omega) (by simp)
          · rw [if_neg heq]
            cases ts with
            | some t =>
              have ht := hts t rfl
              rw [if_neg (by simp)]
              rw [if_neg (by simp)]
              exact ih (i + 1) (some t) hlt (by omega) (by intro u hu; injection hu with hu; omega)
            | none =>
              by_cases h34 : (s.get ⟨i, hlt⟩ == 34) = true
              · rw [if_pos (by simpa using h34)]
                rcases hscan : cachecontrol.scanQuoted s i s.length (i + 1) false [] (i + 1) with _ | ⟨j, text⟩
                · exact ih (i + 1) (some i) hlt (by omega) (by intro u hu; injection hu with hu; omega)
                · obtain ⟨hj1, hj2⟩ :=
                    cachecontrol.scanQuoted_some s i s.length (i + 1) false [] (i + 1) j text hscan
                  exact ⟨rfl, show i < j + 1 by omega, ih (j + 1) none (by omega) (by omega) (by simp)⟩
              · rw [if_neg (by simpa using h34)]
                rw [if_pos (by simp)]
                exact ih (i + 1) (some i) hlt (by omega) (by intro u hu; injection hu with hu; omega)
    · rw [cachecontrol.tokenizeAux, dif_neg hlt]
      have hi2 : i = s.length := by omega
      subst hi2
      exact cachecontrol.flushText_spans s ts _ hts

/-- Claim C5: for every input, the tokens of Tokenize have contiguous,
non-empty byte spans that, in order, cover exactly the byte range from 0 to
the input length, with no gaps and no overlaps. -/
theorem claim_C5 (s : Str) : SpansFrom 0 (cachecontrol.Tokenize s) s.length := by
  exact cachecontrol.tokenizeAux_spans s (s.length + 1) 0 none (Nat.zero_le _)
    (by omega) (by simp)

/-- One accumulation step never decreases the accumulator: either the
wrap-detection fires and saturates to MaxUint64, or the new value is at
least the old one. -/
theorem httpcache.deltaStep_ge (d c : Nat) (hd : d < httpcache.U64) :
    d ≤ httpcache.deltaStep d c := by
  simp only [httpcache.deltaStep, httpcache.U64] at *
  split <;> omega

/-- One accumulation step stays below 2^64. -/
theorem httpcache.deltaStep_lt (d c : Nat) : httpcache.deltaStep d c < httpcache.U64 := by
  simp only [httpcache.deltaStep, httpcache.U64]
  split <;> omega

/-- One accumulation step preserves the invariant that the accumulator is at
least the exact digit value so far, capped at 9223372037 (the smallest
second count whose nanosecond value exceeds MaxInt64). -/
theorem httpcache.deltaStep_min (d c v : Nat) (hd : d < httpcache.U64) (hc : c ≤ 57)
    (hmin : min v 9223372037 ≤ d) :
    min (v * 10 + (c - 48)) 9223372037 ≤ httpcache.deltaStep d c := by
  rcases le_or_lt 9223372037 d with hC | hC
  · have := httpcache.deltaStep_ge d c hd
    omega
  · have hv : v ≤ d := by omega
    have hnowrap : d * 10 + (c - 48) < httpcache.U64 := by
      simp only [httpcache.U64]; omega
    have hstep : httpcache.deltaStep d c = d * 10 + (c - 48) := by
      simp only [httpcache.deltaStep]
      rw [Nat.mod_eq_of_lt hnowrap, if_neg (by omega)]
    omega

/-- The digit loop of parseDeltaSeconds, run on a string of ASCII digits,
succeeds with a result below 2^64 that is at least the exact digit value
capped at 9223372037: wrap-arounds the d1 less-than d test fails to detect
can never push the accumulator back below the cap, because every step is
non-decreasing. -/
theorem httpcache.parseDeltaSecondsGo_min : ∀ (s : Str) (d v : Nat),
    (∀ c ∈ s, 48 ≤ c ∧ c ≤ 57) → d < httpcache.U64 → min v 9223372037 ≤ d →
    ∃ d', httpcache.parseDeltaSecondsGo s d = .ok d' ∧ d' < httpcache.U64 ∧
      min (s.foldl (fun v c => v * 10 + (c - 48)) v) 9223372037 ≤ d' := by
  intro s
  induction s with
  | nil =>
    intro d v _ hd hmin
    exact ⟨d, rfl, hd, by simpa using hmin⟩
  | cons c rest ih =>
    intro d v hdig hd hmin
    have hc := hdig c (List.mem_cons_self _ _)
    have hrest : ∀ b ∈ rest, 48 ≤ b ∧ b ≤ 57 := fun b hb => hdig b (List.mem_cons_of_mem _ hb)
    obtain ⟨d', heq, hlt, hge⟩ := ih (httpcache.deltaStep d c) (v * 10 + (c - 48)) hrest
      (httpcache.deltaStep_lt d c) (httpcache.deltaStep_min d c v hd hc.2 hmin)
    refine ⟨d', ?_, hlt, by simpa using hge⟩
    simp only [httpcache.parseDeltaSecondsGo]
    rw [if_neg (by simp; omega)]
    exact heq

/-- Claim C4: ParseAge on any nonempty string of ASCII digits whose exact
numeric value exceeds 9223372036 seconds (the largest whole second count
representable in an int64 of nanoseconds) returns the saturated maximum
duration with no error; neither an error nor a wrapped-around smaller value
is possible, even when the intermediate uint64 accumulation wraps without
being caught by the d1 less-than d test. -/
theorem claim_C4 (s : Str) (h1 : s ≠ []) (h2 : ∀ c ∈ s, 48 ≤ c ∧ c ≤ 57)
    (h3 : 9223372036 < httpcache.digitsVal s) :
    httpcache.ParseAge s = .ok httpcache.maxInt64 := by
  obtain ⟨d', heq, hlt, hge⟩ := httpcache.parseDeltaSecondsGo_min s 0 0 h2
    (by simp [httpcache.U64]) (by simp)
  unfold httpcache.digitsVal at h3
  have hC : 9223372037 ≤ d' := by omega
  unfold httpcache.ParseAge httpcache.parseDeltaSeconds
  rw [if_neg h1, heq]
  dsimp only
  rw [if_pos]
  simp only [httpcache.toInt64, httpcache.I64, httpcache.U64] at *
  by_cases hI : d' < 9223372036854775808
  · right
    rw [if_pos hI]
    exact_mod_cast by omega
  · left
    rw [if_neg hI]
    omega

/-- Witness for claim C4: the digit string 9223372037 (one more second than
fits in an int64 nanosecond count) saturates. -/
theorem claim_C4_witness :
    9223372036 < httpcache.digitsVal (bytesOf "9223372037") ∧
    httpcache.ParseAge (bytesOf "9223372037") = .ok httpcache.maxInt64 :=
  ⟨by decide, claim_C4 (bytesOf "9223372037") (by decide) (by decide) (by decide)⟩

/-- Counterexample to claim C6: on the four-byte input a-space-space-b the
whitespace run between the words is not collapsed: the single resulting
directive name keeps both spaces, so it differs from the collapsed name the
claim predicts. -/
theorem claim_C6_counterexample :
    cachecontrol.Parse (bytesOf "a  b") = [{ Name := bytesOf "a  b" }] ∧
    bytesOf "a  b" ≠ bytesOf "a b" := by decide

/-- Claim C6 as amended: when Parse accumulates a multi-word directive name
or value, it inserts the whole preceding whitespace run verbatim (the Space
token text, spaces and control characters alike) between the words, so a
single-space separator contributes exactly one space but a longer run is
preserved, not collapsed. -/
theorem claim_C6_amended :
    (∀ (rest : List cachecontrol.Token) (name value : Str) (sp txt : cachecontrol.Token),
      sp.type = .space → txt.type = .text → name ≠ [] →
      cachecontrol.parseAux (txt :: rest) .name name value sp =
        cachecontrol.parseAux rest .name (name ++ sp.text ++ txt.text) value txt) ∧
    (∀ (rest : List cachecontrol.Token) (name value : Str) (sp txt : cachecontrol.Token),
      sp.type = .space → txt.type = .text → value ≠ [] →
      cachecontrol.parseAux (txt :: rest) .value name value sp =
        cachecontrol.parseAux rest .value name (value ++ sp.text ++ txt.text) txt) := by
  constructor
  · intro rest name value sp txt hsp htxt hname
    obtain ⟨ty, st, en, tx⟩ := txt
    simp only at htxt
    subst htxt
    simp [cachecontrol.parseAux, hsp, List.isEmpty_iff, hname, List.append_assoc]
  · intro rest name value sp txt hsp htxt hvalue
    obtain ⟨ty, st, en, tx⟩ := txt
    simp only at htxt
    subst htxt
    simp [cachecontrol.parseAux, hsp, List.isEmpty_iff, hvalue, List.append_assoc]

/-- Witness for the amended claim C6: a pending one-byte name, a two-space
Space run and a one-byte Text token. -/
theorem claim_C6_amended_witness :
    ({ type := .space, text := bytesOf "  " } : cachecontrol.Token).type = .space ∧
    ({ type := .text, text := bytesOf "b" } : cachecontrol.Token).type = .text ∧
    bytesOf "a" ≠ [] ∧
    cachecontrol.parseAux [{ type := .text, text := bytesOf "b" }] .name (bytesOf "a") []
        { type := .space, text := bytesOf "  " } =
      cachecontrol.parseAux [] .name (bytesOf "a" ++ bytesOf "  " ++ bytesOf "b") []
        { type := .text, text := bytesOf "b" } :=
  ⟨rfl, rfl, by decide,
    claim_C6_amended.1 [] (bytesOf "a") [] { type := .space, text := bytesOf "  " }
      { type := .text, text := bytesOf "b" } rfl rfl (by decide)⟩

/-- Claim C10: the empty Cache-Control header parses to nothing: Parse
yields no directives and both classifiers return the zero-value directive
struct with no error (in particular no empty-numeric-value error). -/
theorem claim_C10 :
    cachecontrol.Parse (bytesOf "") = [] ∧
    httpcache.ParseRequestDirectives (bytesOf "") =
      ({ MaxAge := 0, MaxStale := 0, MinFresh := 0, NoCache := false, NoStore := false,
         NoTransform := false, OnlyIfCached := false, Extensions := [] }, []) ∧
    httpcache.ParseResponseDirectives (bytesOf "") =
      ({ MaxAge := 0, MustRevalidate := false, MustUnderstand := false, NoCache := false,
         NoCacheHeaders := none, NoStore := false, NoTransform := false, Private := false,
         PrivateHeaders := none, ProxyRevalidate := false, Public := false, SMaxAge := 0,
         Extensions := [] }, []) := by decide
